import Mathlib

/-!
# Verification of the `hibe_sm9` HIBE core (`core.go`)

The repository implements the Boneh–Boyen–Goh hierarchical identity-based
encryption scheme over the `bn256` pairing groups.  All three groups
(G1, G2, GT) are cyclic of the same prime order `bn256.Order`, with fixed
generators, and every group operation used by the code (`Add`,
`ScalarMult`, `Neg`, `Pair`) acts on discrete logarithms in the standard
way; `Pair` is bilinear and `Pair(P1, P2)` generates GT.  We therefore
embed every group element by its discrete logarithm in `ZMod Order`:

* `Add` on G1/G2/GT (the group law; written multiplicatively in most
  descriptions of the scheme) becomes `+` on `ZMod Order`;
* `ScalarMult x k` becomes `x * k`;
* `Neg` becomes negation;
* `Pair a b` becomes `a * b` (bilinearity: `e(aP, bQ) = e(P, Q)^(ab)`).

The random source (`io.Reader` plus `rand.Int` / `RandomG1` / `RandomG2`)
is embedded as the sequence of scalar values it produces, each read being
either `some` scalar or `none` (a failed read).  Go `panic`s and returned
errors are both embedded as `Except` error values, with a distinct
constructor for each failure site.  Mutation of the pairing-cache field of
`Params` (the only field any exported operation writes) is embedded by
returning the updated `Params`.

A second, heap-based embedding of the three accumulating operations is
given further below to settle the frame/aliasing claim about in-place
mutation (`deepClone`, `new(bn256.G1)` and receiver-mutating `Add` /
`ScalarMult`).
-/

/-- The prime order of the `bn256` groups (`bn256.Order` from
`golang.org/x/crypto/bn256`). -/
def Order : Nat :=
  65000549695646603732796438742359905742825358107623003571877145026864184071783

/-- Discrete-logarithm representation of a `bn256` group element (of G1, G2
or GT, each cyclic of order `Order`). -/
abbrev Zp := ZMod Order

deriving instance DecidableEq for Except

/-- The failure modes of the core operations.  `entropyFailure` is a returned
`error` (a failed randomness read); `depthExceeded` and
`structuralMismatch` are the two `panic` sites of `KeyGenFromMaster` /
`KeyGenFromParent`; `indexOutOfRange` is a Go runtime index-out-of-bounds
panic (e.g. `params.H[i]` with `i >= len(params.H)`). -/
inductive HibeErr where
  | entropyFailure
  | depthExceeded
  | structuralMismatch
  | indexOutOfRange
deriving DecidableEq

/-- `Params` from `core.go`: the public system parameters.  `G`, `G1` live in
the bn256 group G2 and `G2`, `G3`, `H[i]` in the bn256 group G1; all are
embedded by discrete logarithm.  `Pairing` is the lazily computed pairing
cache (`nil` embedded as `none`). -/
structure Params where
  G : Zp
  G1 : Zp
  G2 : Zp
  G3 : Zp
  H : List Zp
  Pairing : Option Zp
deriving DecidableEq

/-- `MasterKey` from `core.go` (a single G1 element, `g2^alpha`). -/
abbrev MasterKey := Zp

/-- `PrivateKey` from `core.go`: `A0` in G1, `A1` in G2, `B` a vector of G1
elements. -/
structure PrivateKey where
  A0 : Zp
  A1 : Zp
  B : List Zp
deriving DecidableEq

/-- `Ciphertext` from `core.go`: `A` in GT, `B` in G2, `C` in G1. -/
structure Ciphertext where
  A : Zp
  B : Zp
  C : Zp
deriving DecidableEq

/-- `(*Params).MaximumDepth` from `core.go`: `len(params.H)`. -/
def Params.MaximumDepth (params : Params) : Nat :=
  params.H.length

/-- `(*PrivateKey).DepthLeft` from `core.go`: `len(privkey.B)`. -/
def PrivateKey.DepthLeft (privkey : PrivateKey) : Nat :=
  privkey.B.length

/-- The accumulation loop shared by `KeyGenFromMaster`, `KeyGenFromParent`
and `Encrypt`: starting from `acc` (a fresh clone of `g3`), add
`H[i] * id[i]` for `i = 0 .. len(id)-1`.  Returns `none` when `id` is
longer than `H` (in Go, `params.H[i]` would panic with an index out of
range). -/
def idProduct (acc : Zp) : List Zp → List Zp → Option Zp
  | _, [] => some acc
  | h :: hs, a :: as => idProduct (acc + h * a) hs as
  | [], _ :: _ => none

/-- The sequence of `RandomG1` reads of the `for i := range params.H` loop in
`Setup`: read `n` scalars from the random stream starting at position
`start`, failing as soon as one read fails. -/
def readScalars (rnd : Nat → Option Zp) : Nat → Nat → Option (List Zp)
  | _, 0 => some []
  | start, n + 1 =>
    match rnd start with
    | none => none
    | some x =>
      match readScalars rnd (start + 1) n with
      | none => none
      | some xs => some (x :: xs)

/-- `Setup` from `core.go`.  The random stream `rnd` supplies, in order, the
discrete logs of `g` (`RandomG2`), the scalar `alpha` (`rand.Int`), `g2`
and `g3` (`RandomG1`), and the `l` elements `h_1 .. h_l` (`RandomG1`);
each read may fail.  On success returns the parameters (with an empty
pairing cache) and the master key `g2^alpha`. -/
def Setup (rnd : Nat → Option Zp) (l : Nat) : Except HibeErr (Params × MasterKey) :=
  match rnd 0 with
  | none => .error .entropyFailure
  | some g =>
    match rnd 1 with
    | none => .error .entropyFailure
    | some alpha =>
      match rnd 2 with
      | none => .error .entropyFailure
      | some g2 =>
        match rnd 3 with
        | none => .error .entropyFailure
        | some g3 =>
          match readScalars rnd 4 l with
          | none => .error .entropyFailure
          | some hs =>
            .ok ({ G := g, G1 := g * alpha, G2 := g2, G3 := g3, H := hs,
                   Pairing := none },
                 g2 * alpha)

/-- `KeyGenFromMaster` from `core.go`.  `rnd` is the (possibly failing) read
of the scalar `r`.  The depth check (`panic`, embedded as
`.depthExceeded`) precedes the randomness read, exactly as in the
source. -/
def KeyGenFromMaster (rnd : Option Zp) (params : Params) (master : MasterKey)
    (id : List Zp) : Except HibeErr PrivateKey :=
  let k := id.length
  let l := params.H.length
  if k > l then .error .depthExceeded
  else
    match rnd with
    | none => .error .entropyFailure
    | some r =>
      match idProduct params.G3 params.H id with
      | none => .error .indexOutOfRange
      | some v =>
        .ok { A0 := master + v * r,
              A1 := params.G * r,
              B := (params.H.drop k).map (fun h => h * r) }

/-- `KeyGenFromParent` from `core.go`.  The depth check comes first, then the
parent-depth check (`parent.DepthLeft() != l-k+1`, computed over `int`),
then the randomness read, exactly as in the source.  `parent.B[0]` and
`id[k-1]` are embedded as `head?` / `getLast?` (out of range would be a Go
index panic). -/
def KeyGenFromParent (rnd : Option Zp) (params : Params) (parent : PrivateKey)
    (id : List Zp) : Except HibeErr PrivateKey :=
  let k := id.length
  let l := params.H.length
  if k > l then .error .depthExceeded
  else if (parent.DepthLeft : Int) ≠ (l : Int) - (k : Int) + 1 then
    .error .structuralMismatch
  else
    match rnd with
    | none => .error .entropyFailure
    | some t =>
      match idProduct params.G3 params.H id with
      | none => .error .indexOutOfRange
      | some v =>
        match parent.B.head?, id.getLast? with
        | some b0, some idk =>
          .ok { A0 := parent.A0 + b0 * idk + v * t,
                A1 := parent.A1 + params.G * t,
                B := List.zipWith (fun h b => b + h * t)
                       (params.H.drop k) parent.B.tail }
        | _, _ => .error .indexOutOfRange

/-- `(*Params).Precache` from `core.go`: compute `Pairing = Pair(G2, G1)` if
absent.  The mutation of the receiver is embedded by returning the updated
`Params`. -/
def Params.Precache (params : Params) : Params :=
  match params.Pairing with
  | some _ => params
  | none => { params with Pairing := some (params.G2 * params.G1) }

/-- `Encrypt` from `core.go`.  `rnd` is the read of the scalar `s`, which the
source performs before touching the pairing cache.  The result pairs the
`(*Ciphertext, error)` return value with the final state of `params`
(whose `Pairing` field the source may set in place). -/
def Encrypt (rnd : Option Zp) (params : Params) (id : List Zp) (message : Zp) :
    Except HibeErr Ciphertext × Params :=
  match rnd with
  | none => (.error .entropyFailure, params)
  | some s =>
    let cache :=
      match params.Pairing with
      | some c => c
      | none => params.G2 * params.G1
    let params' := { params with Pairing := some cache }
    match idProduct params.G3 params.H id with
    | none => (.error .indexOutOfRange, params')
    | some v =>
      (.ok { A := cache * s + message,
             B := params.G * s,
             C := v * s },
       params')

/-- `Decrypt` from `core.go`:
`plaintext = A + (Pair(C, A1) + (- Pair(A0, B)))` in discrete-log form
(the GT group written additively). -/
def Decrypt (key : PrivateKey) (ciphertext : Ciphertext) : Zp :=
  ciphertext.A + (ciphertext.C * key.A1 + -(key.A0 * ciphertext.B))

/-- The delegation chain the spec describes as "root → depth 1 → … → depth k":
starting from `key` (whose path is `pre`), extend the path one segment at a
time with successive `KeyGenFromParent` calls, the scalar `ts` supplying one
fresh randomizer per step. -/
def chainFrom (params : Params) (key : PrivateKey) (pre : List Zp) :
    List Zp → List Zp → Except HibeErr PrivateKey
  | [], _ => .ok key
  | _ :: _, [] => .error .entropyFailure
  | seg :: rest, t :: ts =>
    match KeyGenFromParent (some t) params key (pre ++ [seg]) with
    | .ok key' => chainFrom params key' (pre ++ [seg]) rest ts
    | .error e => .error e

/-- The shape every key produced by `KeyGenFromMaster` has, and that
`KeyGenFromParent` preserves (with the randomizers of the two derivation
steps adding up): `A0 = master + (g3 + Σ H[i]·id[i]) · r`, `A1 = g · r`,
`B[j] = H[k+j] · r`. -/
def MasterForm (params : Params) (master : MasterKey) (id : List Zp) (r : Zp)
    (key : PrivateKey) : Prop :=
  ∃ v, idProduct params.G3 params.H id = some v ∧
    key.A0 = master + v * r ∧
    key.A1 = params.G * r ∧
    key.B = (params.H.drop id.length).map (fun h => h * r)

lemma idProduct_isSome (id : List Zp) : ∀ (hs : List Zp) (acc : Zp),
    id.length ≤ hs.length → ∃ v, idProduct acc hs id = some v := by
  induction id with
  | nil =>
    intro hs acc _
    cases hs <;> exact ⟨acc, rfl⟩
  | cons a as ih =>
    intro hs acc hlen
    cases hs with
    | nil => simp at hlen
    | cons h hs' =>
      exact ih hs' (acc + h * a) (by simpa using hlen)

lemma idProduct_none (id : List Zp) : ∀ (hs : List Zp) (acc : Zp),
    hs.length < id.length → idProduct acc hs id = none := by
  induction id with
  | nil => intro hs acc hlen; simp at hlen
  | cons a as ih =>
    intro hs acc hlen
    cases hs with
    | nil => rfl
    | cons h hs' => exact ih hs' (acc + h * a) (by simpa using hlen)

lemma idProduct_concat (xs : List Zp) : ∀ (hs : List Zp) (acc y v hk : Zp),
    idProduct acc hs xs = some v → (hs.drop xs.length).head? = some hk →
    idProduct acc hs (xs ++ [y]) = some (v + hk * y) := by
  induction xs with
  | nil =>
    intro hs acc y v hk h1 h2
    cases hs with
    | nil => simp at h2
    | cons h hs' =>
      simp only [List.length_nil, List.drop_zero, List.head?_cons,
        Option.some.injEq] at h2
      have hacc : acc = v := by
        simpa [idProduct] using h1
      subst hacc; subst h2
      cases hs' <;> rfl
  | cons x xs' ih =>
    intro hs acc y v hk h1 h2
    cases hs with
    | nil => simp [idProduct] at h1
    | cons h hs' =>
      have h2' : (hs'.drop xs'.length).head? = some hk := by
        simpa using h2
      exact ih hs' (acc + h * x) y v hk h1 h2'

lemma zipWith_shift_map (t rho : Zp) (L : List Zp) :
    List.zipWith (fun h b => b + h * t) L (L.map fun h => h * rho) =
      L.map fun h => h * (rho + t) := by
  induction L with
  | nil => rfl
  | cons x xs ih =>
    simp only [List.map_cons, List.zipWith_cons_cons, ih, List.cons.injEq]
    exact ⟨by ring, trivial⟩

lemma keyGenFromMaster_ok (r : Zp) (params : Params) (master : MasterKey)
    (id : List Zp) (key : PrivateKey)
    (h : KeyGenFromMaster (some r) params master id = .ok key) :
    id.length ≤ params.H.length ∧ MasterForm params master id r key := by
  by_cases hgt : id.length > params.H.length
  · simp [KeyGenFromMaster, hgt] at h
  · cases hv : idProduct params.G3 params.H id with
    | none => simp [KeyGenFromMaster, hgt, hv] at h
    | some v =>
      simp [KeyGenFromMaster, hgt, hv] at h
      refine ⟨by omega, v, hv, ?_, ?_, ?_⟩ <;> simp [← h]

lemma setup_ok (rnd : Nat → Option Zp) (l : Nat) (params : Params)
    (master : MasterKey) (h : Setup rnd l = .ok (params, master)) :
    ∃ alpha, params.G1 = params.G * alpha ∧ master = params.G2 * alpha ∧
      params.Pairing = none := by
  cases h0 : rnd 0 with
  | none => simp [Setup, h0] at h
  | some g =>
  cases h1 : rnd 1 with
  | none => simp [Setup, h0, h1] at h
  | some alpha =>
  cases h2 : rnd 2 with
  | none => simp [Setup, h0, h1, h2] at h
  | some g2 =>
  cases h3 : rnd 3 with
  | none => simp [Setup, h0, h1, h2, h3] at h
  | some g3 =>
  cases h4 : readScalars rnd 4 l with
  | none => simp [Setup, h0, h1, h2, h3, h4] at h
  | some hs =>
    simp [Setup, h0, h1, h2, h3, h4] at h
    obtain ⟨hp, hm⟩ := h
    refine ⟨alpha, ?_, ?_, ?_⟩ <;> simp [← hp, ← hm]

lemma decrypt_masterForm (params : Params) (master : MasterKey) (alpha : Zp)
    (hG1 : params.G1 = params.G * alpha) (hmaster : master = params.G2 * alpha)
    (hcache : params.Pairing = none) (id : List Zp) (rho s m : Zp)
    (key : PrivateKey) (ct : Ciphertext) (p' : Params)
    (hkey : MasterForm params master id rho key)
    (henc : Encrypt (some s) params id m = (.ok ct, p')) :
    Decrypt key ct = m := by
  obtain ⟨v, hv, hA0, hA1, _⟩ := hkey
  simp [Encrypt, hcache, hv] at henc
  obtain ⟨hct, -⟩ := henc
  simp [Decrypt, ← hct, hA0, hA1, hG1, hmaster]
  ring

lemma keyGenFromParent_step (params : Params) (master : MasterKey)
    (pre : List Zp) (seg rho t : Zp) (parent key : PrivateKey)
    (hpar : MasterForm params master pre rho parent)
    (h : KeyGenFromParent (some t) params parent (pre ++ [seg]) = .ok key) :
    MasterForm params master (pre ++ [seg]) (rho + t) key := by
  obtain ⟨v, hv, hA0, hA1, hB⟩ := hpar
  by_cases hgt : params.H.length < pre.length + 1
  · simp [KeyGenFromParent, hgt] at h
  · have hlt : pre.length < params.H.length := by omega
    have hlen' : 0 < (params.H.drop pre.length).length := by
      simp [List.length_drop]; omega
    obtain ⟨hk, tl, hd⟩ :=
      List.exists_cons_of_ne_nil (List.ne_nil_of_length_pos hlen')
    have htl : tl = params.H.drop (pre.length + 1) := by
      have := List.tail_drop params.H pre.length
      rw [hd] at this
      simpa using this
    have hv' : idProduct params.G3 params.H (pre ++ [seg]) = some (v + hk * seg) :=
      idProduct_concat pre params.H params.G3 seg v hk hv (by rw [hd]; rfl)
    have hpB : parent.B = hk * rho :: tl.map (fun x => x * rho) := by
      rw [hB, hd]; rfl
    have hdl : (parent.DepthLeft : Int) =
        (params.H.length : Int) - ((pre.length : Int) + 1) + 1 := by
      have : parent.B.length = (params.H.length - (pre.length + 1)) + 1 := by
        simp [hpB, htl, List.length_drop]
      simp [PrivateKey.DepthLeft, this]
      omega
    simp [KeyGenFromParent, hgt, hdl, hv', hpB, List.getLast?_concat] at h
    refine ⟨v + hk * seg, hv', ?_, ?_, ?_⟩
    · rw [← h]
      simp only [hA0]
      ring
    · rw [← h]
      simp only [hA1]
      ring
    · rw [← h]
      show List.zipWith (fun h b => b + h * t) (params.H.drop (pre.length + 1))
            (List.map (fun x => x * rho) tl) =
          (params.H.drop (pre ++ [seg]).length).map (fun h => h * (rho + t))
      rw [htl, zipWith_shift_map]
      simp

lemma chainFrom_masterForm (params : Params) (master : MasterKey) :
    ∀ (rest ts pre : List Zp) (rho : Zp) (key key' : PrivateKey),
      MasterForm params master pre rho key →
      chainFrom params key pre rest ts = .ok key' →
      ∃ rho', MasterForm params master (pre ++ rest) rho' key' := by
  intro rest
  induction rest with
  | nil =>
    intro ts pre rho key key' hmf hch
    have hkk : key = key' := by simpa [chainFrom] using hch
    exact ⟨rho, by simpa [← hkk] using hmf⟩
  | cons seg rest' ih =>
    intro ts pre rho key key' hmf hch
    cases ts with
    | nil => simp [chainFrom] at hch
    | cons t ts' =>
      cases hstep : KeyGenFromParent (some t) params key (pre ++ [seg]) with
      | error e => simp [chainFrom, hstep] at hch
      | ok key1 =>
        simp only [chainFrom, hstep] at hch
        have h1 := keyGenFromParent_step params master pre seg rho t key key1 hmf hstep
        obtain ⟨rho', hmf'⟩ := ih ts' (pre ++ [seg]) (rho + t) key1 key' h1 hch
        exact ⟨rho', by simpa using hmf'⟩


lemma keyGenFromParent_ok_len (t : Zp) (params : Params) (parent : PrivateKey)
    (id : List Zp) (key : PrivateKey)
    (h : KeyGenFromParent (some t) params parent id = .ok key) :
    id.length ≤ params.H.length ∧
      parent.B.length = params.H.length - id.length + 1 ∧
      key.B.length = params.H.length - id.length := by
  by_cases hgt : params.H.length < id.length
  · simp [KeyGenFromParent, hgt] at h
  · by_cases hdl : (parent.DepthLeft : Int) =
        (params.H.length : Int) - (id.length : Int) + 1
    · have hplen : parent.B.length = params.H.length - id.length + 1 := by
        simp [PrivateKey.DepthLeft] at hdl; omega
      cases hv : idProduct params.G3 params.H id with
      | none => simp [KeyGenFromParent, hgt, hdl, hv] at h
      | some v =>
        cases hb : parent.B.head? with
        | none => simp [KeyGenFromParent, hgt, hdl, hv, hb] at h
        | some b0 =>
          cases hl : id.getLast? with
          | none => simp [KeyGenFromParent, hgt, hdl, hv, hb, hl] at h
          | some idk =>
            simp [KeyGenFromParent, hgt, hdl, hv, hb, hl] at h
            refine ⟨by omega, hplen, ?_⟩
            rw [← h]
            simp [List.length_zipWith, List.length_drop, List.length_tail]
            omega
    · simp [KeyGenFromParent, hgt, hdl] at h

/-- Claim C1: for every maximum depth, every identity path `id` with
`0 < len(id) <= l`, and every message `m`, decrypting with the key produced
by `KeyGenFromMaster` for `id` the ciphertext produced by `Encrypt` under
the same params and `id` returns exactly `m`. -/
theorem roundTrip_correct (rnd : Nat → Option Zp) (l : Nat) (params : Params)
    (master : MasterKey) (id : List Zp) (r s m : Zp) (key : PrivateKey)
    (ct : Ciphertext) (p' : Params)
    (hsetup : Setup rnd l = .ok (params, master))
    (hpos : 0 < id.length) (hlen : id.length ≤ l)
    (hkey : KeyGenFromMaster (some r) params master id = .ok key)
    (henc : Encrypt (some s) params id m = (.ok ct, p')) :
    Decrypt key ct = m := by
  obtain ⟨alpha, hG1, hm, hc⟩ := setup_ok rnd l params master hsetup
  exact decrypt_masterForm params master alpha hG1 hm hc id r s m key ct p'
    (keyGenFromMaster_ok r params master id key hkey).2 henc

/-- Claim C2: a key derived by the chain `KeyGenFromMaster` for the empty
path followed by successive `KeyGenFromParent` calls (extending the path
one segment at a time) decrypts any ciphertext encrypted for the full path
to the same plaintext as the key derived in one step by
`KeyGenFromMaster`. -/
theorem delegation_equiv (rnd : Nat → Option Zp) (l : Nat) (params : Params)
    (master : MasterKey) (id ts : List Zp) (r0 r s m : Zp)
    (key0 keyChain keyDirect : PrivateKey) (ct : Ciphertext) (p' : Params)
    (hsetup : Setup rnd l = .ok (params, master))
    (hlen : id.length ≤ l)
    (hroot : KeyGenFromMaster (some r0) params master [] = .ok key0)
    (hchain : chainFrom params key0 [] id ts = .ok keyChain)
    (hdirect : KeyGenFromMaster (some r) params master id = .ok keyDirect)
    (henc : Encrypt (some s) params id m = (.ok ct, p')) :
    Decrypt keyChain ct = Decrypt keyDirect ct := by
  obtain ⟨alpha, hG1, hm, hc⟩ := setup_ok rnd l params master hsetup
  have h0 := (keyGenFromMaster_ok r0 params master [] key0 hroot).2
  obtain ⟨rho', hmf⟩ :=
    chainFrom_masterForm params master id ts [] r0 key0 keyChain h0 hchain
  have hmf' : MasterForm params master id rho' keyChain := by simpa using hmf
  rw [decrypt_masterForm params master alpha hG1 hm hc id rho' s m keyChain ct p'
        hmf' henc,
      decrypt_masterForm params master alpha hG1 hm hc id r s m keyDirect ct p'
        (keyGenFromMaster_ok r params master id keyDirect hdirect).2 henc]

/-- Claim C3: whenever the requested identity depth `k = len(id)` exceeds the
configured maximum `l = len(params.H)`, both `KeyGenFromMaster` and
`KeyGenFromParent` fail with the explicitly reported depth-exceeded failure
(in the source a `panic` with an explicit message, embedded as the typed
error `.depthExceeded`) and do not truncate the path or return a key. -/
theorem depthExceeded_reported (rnd rnd' : Option Zp) (params : Params)
    (master : MasterKey) (parent : PrivateKey) (id : List Zp)
    (hgt : params.MaximumDepth < id.length) :
    KeyGenFromMaster rnd params master id = .error .depthExceeded ∧
      KeyGenFromParent rnd' params parent id = .error .depthExceeded := by
  have hgt' : params.H.length < id.length := hgt
  constructor <;> simp [KeyGenFromMaster, KeyGenFromParent, hgt']

/-- Claim C4 (counterexample): the claim quantifies over every call of
`KeyGenFromParent`; but when the requested depth also exceeds the maximum
(`k > l`), the depth check fires first, so a call whose parent has
`DepthLeft() != l - k + 1` fails with the depth-exceeded panic, not with
the structural-mismatch one.  Concrete input: `l = 0`, `id = [1]`, parent
with `DepthLeft() = 1 ≠ l - k + 1 = 0`. -/
theorem parentMismatch_counterexample :
    (({ A0 := 0, A1 := 0, B := [0] } : PrivateKey).DepthLeft : Int) ≠
        (({ G := 0, G1 := 0, G2 := 0, G3 := 0, H := [], Pairing := none } :
            Params).H.length : Int) - (([(1 : Zp)]).length : Int) + 1 ∧
      KeyGenFromParent (some 0)
          { G := 0, G1 := 0, G2 := 0, G3 := 0, H := [], Pairing := none }
          { A0 := 0, A1 := 0, B := [0] } [(1 : Zp)] ≠
        .error .structuralMismatch ∧
      KeyGenFromParent (some 0)
          { G := 0, G1 := 0, G2 := 0, G3 := 0, H := [], Pairing := none }
          { A0 := 0, A1 := 0, B := [0] } [(1 : Zp)] =
        .error .depthExceeded := by
  refine ⟨by decide, by decide, by decide⟩

/-- Claim C4 (amended): for every call of `KeyGenFromParent` whose target
depth `k = len(id)` does not exceed the maximum `l` (so that the depth
check does not fire first), if the supplied parent key has
`DepthLeft() != l - k + 1` then the call fails with the structural-mismatch
failure (in the source a `panic`, embedded as `.structuralMismatch`) and no
private key is returned. -/
theorem parentMismatch_rejected (rnd : Option Zp) (params : Params)
    (parent : PrivateKey) (id : List Zp)
    (hk : id.length ≤ params.MaximumDepth)
    (hmis : (parent.DepthLeft : Int) ≠
      (params.MaximumDepth : Int) - (id.length : Int) + 1) :
    KeyGenFromParent rnd params parent id = .error .structuralMismatch := by
  have h1 : ¬ (params.H.length < id.length) := by
    have := hk
    simp only [Params.MaximumDepth] at this
    omega
  have h2 : (parent.DepthLeft : Int) ≠
      (params.H.length : Int) - (id.length : Int) + 1 := hmis
  simp [KeyGenFromParent, h1, h2]

/-- Claim C5: every private key returned by `KeyGenFromMaster` or
`KeyGenFromParent` for an identity at depth `k` in a hierarchy of maximum
depth `l` has a delegation vector `B` of length exactly `l - k`, and
`DepthLeft()` returns `len(B)`. -/
theorem keyDepth_invariant (rnd rnd' : Option Zp) (params : Params)
    (master : MasterKey) (parent : PrivateKey) (id id' : List Zp)
    (key key' : PrivateKey)
    (hm : KeyGenFromMaster rnd params master id = .ok key)
    (hp : KeyGenFromParent rnd' params parent id' = .ok key') :
    key.B.length = params.MaximumDepth - id.length ∧
      key.DepthLeft = key.B.length ∧
      key'.B.length = params.MaximumDepth - id'.length ∧
      key'.DepthLeft = key'.B.length := by
  refine ⟨?_, rfl, ?_, rfl⟩
  · cases rnd with
    | none =>
      by_cases hgt : params.H.length < id.length <;>
        simp [KeyGenFromMaster, hgt] at hm
    | some r =>
      obtain ⟨-, v, -, -, -, hB⟩ := keyGenFromMaster_ok r params master id key hm
      simp [Params.MaximumDepth, hB, List.length_drop]
  · cases rnd' with
    | none =>
      by_cases hgt : params.H.length < id'.length
      · simp [KeyGenFromParent, hgt] at hp
      · by_cases hdl : (parent.DepthLeft : Int) =
            (params.H.length : Int) - (id'.length : Int) + 1 <;>
          simp [KeyGenFromParent, hgt, hdl] at hp
    | some t =>
      exact (keyGenFromParent_ok_len t params parent id' key' hp).2.2

/-- Claim C9: `Encrypt` performs no depth check: for every `id` longer than
`MaximumDepth(params)`, the accumulation loop's lookup of `params.H` goes
out of bounds (embedded: `idProduct` has no value, and the call returns the
index-out-of-range failure), rather than returning the depth-exceeded
failure the key-generation operations report. -/
theorem encrypt_noDepthCheck (params : Params) (s m : Zp) (id : List Zp)
    (hgt : params.MaximumDepth < id.length) :
    (Encrypt (some s) params id m).1 = .error .indexOutOfRange := by
  have hn := idProduct_none id params.H params.G3 hgt
  cases hp : params.Pairing <;> simp [Encrypt, hp, hn]

/-- Claim C10: the empty identity path (`k = 0`, the root) is accepted by the
public interface: `KeyGenFromMaster` with an empty id returns a key with
`A0 = master · g3^r` and `DepthLeft() = l`, `Encrypt` for the empty path
produces `C = g3^s`, and decrypting such a ciphertext with that root key
recovers the original message. -/
theorem emptyId_roundTrip (rnd : Nat → Option Zp) (l : Nat) (params : Params)
    (master : MasterKey) (r s m : Zp) (key : PrivateKey) (ct : Ciphertext)
    (p' : Params)
    (hsetup : Setup rnd l = .ok (params, master))
    (hkey : KeyGenFromMaster (some r) params master [] = .ok key)
    (henc : Encrypt (some s) params [] m = (.ok ct, p')) :
    key.A0 = master + params.G3 * r ∧ key.DepthLeft = params.MaximumDepth ∧
      ct.C = params.G3 * s ∧ Decrypt key ct = m := by
  obtain ⟨alpha, hG1, hm, hc⟩ := setup_ok rnd l params master hsetup
  have hid0 : idProduct params.G3 params.H [] = some params.G3 := by
    cases params.H <;> rfl
  have hmf := (keyGenFromMaster_ok r params master [] key hkey).2
  obtain ⟨v, hv, hA0, hA1, hB⟩ := hmf
  rw [hid0] at hv
  obtain rfl : params.G3 = v := Option.some.inj hv
  refine ⟨hA0, ?_, ?_, ?_⟩
  · simp [PrivateKey.DepthLeft, Params.MaximumDepth, hB]
  · simp [Encrypt, hc, hid0] at henc
    obtain ⟨hct, -⟩ := henc
    rw [← hct]
  · exact decrypt_masterForm params master alpha hG1 hm hc [] r s m key ct p'
      ⟨params.G3, hid0, hA0, hA1, hB⟩ henc

/-- Claim C6: the pairing-cache slot makes exactly one monotonic transition:
`Setup` returns params with the cache absent; the first `Precache` or
`Encrypt` call sets it to `Pair(G2, G1)`; once set, neither `Precache` nor
`Encrypt` ever changes its value (`KeyGenFromMaster`, `KeyGenFromParent`
and `Decrypt` never write `params` at all, which the functional embedding
reflects by not returning a `Params`). -/
theorem pairingCache_monotone (rnd : Nat → Option Zp) (l : Nat)
    (params : Params) (master : MasterKey) (p : Params) (c : Zp)
    (id : List Zp) (m s : Zp)
    (hsetup : Setup rnd l = .ok (params, master)) :
    params.Pairing = none ∧
      (p.Pairing = none → p.Precache.Pairing = some (p.G2 * p.G1)) ∧
      (p.Pairing = none →
        (Encrypt (some s) p id m).2.Pairing = some (p.G2 * p.G1)) ∧
      (p.Pairing = some c → p.Precache = p) ∧
      (p.Pairing = some c → (Encrypt (some s) p id m).2.Pairing = some c) := by
  obtain ⟨alpha, -, -, hc⟩ := setup_ok rnd l params master hsetup
  refine ⟨hc, ?_, ?_, ?_, ?_⟩ <;> intro hp
  · simp [Params.Precache, hp]
  · cases hv : idProduct p.G3 p.H id <;> simp [Encrypt, hp, hv]
  · simp [Params.Precache, hp]
  · cases hv : idProduct p.G3 p.H id <;> simp [Encrypt, hp, hv]

lemma readScalars_fail (rnd : Nat → Option Zp) :
    ∀ (n start : Nat), (∃ i, i < n ∧ rnd (start + i) = none) →
      readScalars rnd start n = none := by
  intro n
  induction n with
  | zero =>
    intro start h
    obtain ⟨i, hi, -⟩ := h
    omega
  | succ n' ih =>
    intro start h
    obtain ⟨i, hi, hnone⟩ := h
    cases h0 : rnd start with
    | none => simp [readScalars, h0]
    | some x =>
      have hnext : ∃ j, j < n' ∧ rnd (start + 1 + j) = none := by
        cases i with
        | zero => rw [Nat.add_zero] at hnone; rw [h0] at hnone; cases hnone
        | succ j =>
          refine ⟨j, by omega, ?_⟩
          rw [show start + 1 + j = start + (j + 1) by omega]
          exact hnone
      simp [readScalars, h0, ih (start + 1) hnext]

lemma setup_fail (rnd : Nat → Option Zp) (l : Nat)
    (hfail : rnd 0 = none ∨ rnd 1 = none ∨ rnd 2 = none ∨ rnd 3 = none ∨
      ∃ i, i < l ∧ rnd (4 + i) = none) :
    Setup rnd l = .error .entropyFailure := by
  cases h0 : rnd 0 with
  | none => simp [Setup, h0]
  | some g =>
  cases h1 : rnd 1 with
  | none => simp [Setup, h0, h1]
  | some a =>
  cases h2 : rnd 2 with
  | none => simp [Setup, h0, h1, h2]
  | some b =>
  cases h3 : rnd 3 with
  | none => simp [Setup, h0, h1, h2, h3]
  | some d =>
  have h4 : readScalars rnd 4 l = none := by
    rcases hfail with h | h | h | h | h
    · rw [h0] at h; cases h
    · rw [h1] at h; cases h
    · rw [h2] at h; cases h
    · rw [h3] at h; cases h
    · exact readScalars_fail rnd l 4 h
  simp [Setup, h0, h1, h2, h3, h4]

/-- Claim C7: for every operation that reads the random source, if a
randomness read fails the operation returns the entropy failure with no
partial result: `Setup` fails whenever any of its reads fails,
`KeyGenFromMaster` / `KeyGenFromParent` (whose preceding guards must pass
for the read to be reached) return the error and no key, and `Encrypt`
returns the error together with `params` completely unchanged (in
particular the pairing cache is untouched, the read coming first in the
source). -/
theorem entropyFailure_aborts (rnd : Nat → Option Zp) (l : Nat)
    (params : Params) (master : MasterKey) (parent : PrivateKey)
    (id : List Zp) (m : Zp)
    (hfail : rnd 0 = none ∨ rnd 1 = none ∨ rnd 2 = none ∨ rnd 3 = none ∨
      ∃ i, i < l ∧ rnd (4 + i) = none)
    (hlen : id.length ≤ params.MaximumDepth)
    (hdl : (parent.DepthLeft : Int) =
      (params.MaximumDepth : Int) - (id.length : Int) + 1) :
    Setup rnd l = .error .entropyFailure ∧
      KeyGenFromMaster none params master id = .error .entropyFailure ∧
      KeyGenFromParent none params parent id = .error .entropyFailure ∧
      Encrypt none params id m = (.error .entropyFailure, params) := by
  have h1 : ¬ (params.H.length < id.length) := by
    have := hlen
    simp only [Params.MaximumDepth] at this
    omega
  have h2 : (parent.DepthLeft : Int) =
      (params.H.length : Int) - (id.length : Int) + 1 := hdl
  refine ⟨setup_fail rnd l hfail, ?_, ?_, rfl⟩
  · simp [KeyGenFromMaster, h1]
  · simp [KeyGenFromParent, h1, h2]

/-! ## Heap-based embedding for the aliasing/frame claim

`core.go` mutates group elements in place (`product.Add(product, h)`,
`ciphertext.C.ScalarMult(...)`, ...).  To state that no call mutates a
group element it did not itself create, we re-embed the three accumulating
operations over an explicit heap: every group element is a location, `new`
and `deepClone` allocate fresh locations, and the receiver-style bn256
methods write through their receiver location.  Values stored are the
discrete logarithms, as in the functional embedding. -/

/-- A heap of allocated group elements: `mem` maps locations to values,
`next` is the next fresh location (all live locations are below it). -/
structure Heap where
  mem : Nat → Zp
  next : Nat

/-- Write through a location (the receiver of a mutating bn256 method). -/
def Heap.write (h : Heap) (dst : Nat) (v : Zp) : Heap :=
  { h with mem := fun i => if i = dst then v else h.mem i }

/-- Allocate a fresh element holding `v` (Go `new(bn256.G1)` etc. followed by
an initializing write). -/
def Heap.alloc (h : Heap) (v : Zp) : Heap × Nat :=
  ({ mem := fun i => if i = h.next then v else h.mem i, next := h.next + 1 },
   h.next)

/-- Modelled from the spec: the Element Utility `deepClone` (its defining
source file is not under `src/`; only its call sites in `core.go` and its
test in `util_test.go` are).  Per the spec it performs "safe, aliasing-free
duplication of group elements before in-place accumulation": it allocates a
fresh location holding a copy of the value at `src`. -/
def deepClone (h : Heap) (src : Nat) : Heap × Nat :=
  h.alloc (h.mem src)

/-- `dst.ScalarMult(src, k)` (receiver form, as in `product.ScalarMult(product, r)`). -/
def scalarMultInto (h : Heap) (dst src : Nat) (k : Zp) : Heap :=
  h.write dst (h.mem src * k)

/-- `dst.Add(a, b)` (receiver form, as in `product.Add(product, h)`). -/
def addInto (h : Heap) (dst a b : Nat) : Heap :=
  h.write dst (h.mem a + h.mem b)

/-- `new(bn256.G1).ScalarMult(src, k)`: allocate and initialize. -/
def newScalarMult (h : Heap) (src : Nat) (k : Zp) : Heap × Nat :=
  h.alloc (h.mem src * k)

/-- `new(bn256.G1).Add(a, b)`: allocate and initialize. -/
def newAdd (h : Heap) (a b : Nat) : Heap × Nat :=
  h.alloc (h.mem a + h.mem b)

/-- `bn256.Pair(a, b)`: allocates its GT result. -/
def newPair (h : Heap) (a b : Nat) : Heap × Nat :=
  h.alloc (h.mem a * h.mem b)

/-- `new(bn256.GT).Neg(src)`: allocate and initialize with the inverse. -/
def newNeg (h : Heap) (src : Nat) : Heap × Nat :=
  h.alloc (- h.mem src)

/-- `Params` with each group element given by its heap location. -/
structure HParams where
  G : Nat
  G1 : Nat
  G2 : Nat
  G3 : Nat
  H : List Nat
  Pairing : Option Nat

/-- `PrivateKey` with each group element given by its heap location. -/
structure HKey where
  A0 : Nat
  A1 : Nat
  B : List Nat

/-- `Ciphertext` with each group element given by its heap location. -/
structure HCiphertext where
  A : Nat
  B : Nat
  C : Nat

/-- The shared accumulation loop over the heap:
`h := new(G1).ScalarMult(H[i], id[i]); product.Add(product, h)` for each
`i`.  The boolean is `false` when `id` outruns `H` (Go index panic). -/
def accumLoopH (p : Nat) : Heap → List Nat → List Zp → Heap × Bool
  | h, _, [] => (h, true)
  | h, hl :: hls, a :: as =>
    let t := newScalarMult h hl a
    accumLoopH p (addInto t.1 p p t.2) hls as
  | h, [], _ :: _ => (h, false)

/-- The `key.B[j] = new(G1).ScalarMult(H[k+j], r)` loop of
`KeyGenFromMaster`, returning the freshly allocated locations. -/
def allocScalarMults (k : Zp) : Heap → List Nat → Heap × List Nat
  | h, [] => (h, [])
  | h, s :: ss =>
    let t := newScalarMult h s k
    let r := allocScalarMults k t.1 ss
    (r.1, t.2 :: r.2)

/-- The `key.B[j] = new(G1).ScalarMult(H[k+j], t); key.B[j].Add(parent.B[j+1],
key.B[j])` loop of `KeyGenFromParent`. -/
def allocDelegMults (t : Zp) : Heap → List Nat → List Nat → Heap × List Nat
  | h, s :: ss, pb :: pbs =>
    let n := newScalarMult h s t
    let h2 := addInto n.1 n.2 pb n.2
    let r := allocDelegMults t h2 ss pbs
    (r.1, n.2 :: r.2)
  | h, _, _ => (h, [])

/-- Heap embedding of `KeyGenFromMaster` (same control flow as the
functional embedding; every in-place mutation is explicit). -/
def hKeyGenFromMaster (rnd : Option Zp) (h : Heap) (params : HParams)
    (master : Nat) (idv : List Zp) : Except HibeErr HKey × Heap :=
  if idv.length > params.H.length then (.error .depthExceeded, h)
  else
    match rnd with
    | none => (.error .entropyFailure, h)
    | some r =>
      let pc := deepClone h params.G3
      let acc := accumLoopH pc.2 pc.1 params.H idv
      if acc.2 then
        let h3 := scalarMultInto acc.1 pc.2 pc.2 r
        let a0 := newAdd h3 master pc.2
        let a1 := newScalarMult a0.1 params.G r
        let bs := allocScalarMults r a1.1 (params.H.drop idv.length)
        (.ok { A0 := a0.2, A1 := a1.2, B := bs.2 }, bs.1)
      else (.error .indexOutOfRange, acc.1)

/-- Heap embedding of `KeyGenFromParent`. -/
def hKeyGenFromParent (rnd : Option Zp) (h : Heap) (params : HParams)
    (parent : HKey) (idv : List Zp) : Except HibeErr HKey × Heap :=
  if idv.length > params.H.length then (.error .depthExceeded, h)
  else if (parent.B.length : Int) ≠
      (params.H.length : Int) - (idv.length : Int) + 1 then
    (.error .structuralMismatch, h)
  else
    match rnd with
    | none => (.error .entropyFailure, h)
    | some t =>
      let pc := deepClone h params.G3
      let acc := accumLoopH pc.2 pc.1 params.H idv
      if acc.2 then
        let h3 := scalarMultInto acc.1 pc.2 pc.2 t
        match parent.B.head?, idv.getLast? with
        | some b0, some idk =>
          let bp := newScalarMult h3 b0 idk
          let a0 := newAdd bp.1 parent.A0 bp.2
          let h6 := addInto a0.1 a0.2 a0.2 pc.2
          let a1 := newScalarMult h6 params.G t
          let h8 := addInto a1.1 a1.2 parent.A1 a1.2
          let bs := allocDelegMults t h8 (params.H.drop idv.length) parent.B.tail
          (.ok { A0 := a0.2, A1 := a1.2, B := bs.2 }, bs.1)
        | _, _ => (.error .indexOutOfRange, h3)
      else (.error .indexOutOfRange, acc.1)

/-- Heap embedding of `Encrypt` (the pairing-cache write is a field update of
the returned `HParams`, as in the functional embedding). -/
def hEncrypt (rnd : Option Zp) (h : Heap) (params : HParams) (idv : List Zp)
    (message : Nat) : Except HibeErr HCiphertext × Heap × HParams :=
  match rnd with
  | none => (.error .entropyFailure, h, params)
  | some s =>
    let pc :=
      match params.Pairing with
      | some c => (h, c)
      | none => newPair h params.G2 params.G1
    let params' := { params with Pairing := some pc.2 }
    let a := newScalarMult pc.1 pc.2 s
    let h3 := addInto a.1 a.2 a.2 message
    let b := newScalarMult h3 params.G s
    let cc := deepClone b.1 params.G3
    let acc := accumLoopH cc.2 cc.1 params.H idv
    if acc.2 then
      (.ok { A := a.2, B := b.2, C := cc.2 },
       scalarMultInto acc.1 cc.2 cc.2 s, params')
    else (.error .indexOutOfRange, acc.1, params')

/-- Heap embedding of `Decrypt`. -/
def hDecrypt (h : Heap) (key : HKey) (ct : HCiphertext) : Heap × Nat :=
  let p := newPair h ct.C key.A1
  let q := newPair p.1 key.A0 ct.B
  let inv := newNeg q.1 q.2
  let h4 := addInto inv.1 p.2 p.2 inv.2
  let h5 := addInto h4 p.2 ct.A p.2
  (h5, p.2)

/-- Frame relation: locations below `b` are untouched, and allocation only
moves forward. -/
def FrameOn (b : Nat) (h h' : Heap) : Prop :=
  h.next ≤ h'.next ∧ ∀ loc, loc < b → h'.mem loc = h.mem loc

lemma frameOn_refl (b : Nat) (h : Heap) : FrameOn b h h :=
  ⟨le_refl _, fun _ _ => rfl⟩

lemma frameOn_trans {b : Nat} {h1 h2 h3 : Heap} (f1 : FrameOn b h1 h2)
    (f2 : FrameOn b h2 h3) : FrameOn b h1 h3 :=
  ⟨le_trans f1.1 f2.1, fun loc hl => (f2.2 loc hl).trans (f1.2 loc hl)⟩

lemma frameOn_write {b : Nat} (h : Heap) (dst : Nat) (v : Zp) (hdst : b ≤ dst) :
    FrameOn b h (h.write dst v) := by
  refine ⟨le_refl _, fun loc hl => ?_⟩
  simp only [Heap.write]
  rw [if_neg (by omega)]

lemma frameOn_alloc {b : Nat} (h : Heap) (v : Zp) (hb : b ≤ h.next) :
    FrameOn b h (h.alloc v).1 := by
  refine ⟨by simp [Heap.alloc], fun loc hl => ?_⟩
  simp only [Heap.alloc]
  rw [if_neg (by omega)]

lemma write_next (h : Heap) (dst : Nat) (v : Zp) : (h.write dst v).next = h.next :=
  rfl

lemma alloc_next (h : Heap) (v : Zp) : (h.alloc v).1.next = h.next + 1 :=
  rfl

lemma alloc_loc (h : Heap) (v : Zp) : (h.alloc v).2 = h.next :=
  rfl

lemma accumLoopH_frame {b : Nat} (p : Nat) (hp : b ≤ p) :
    ∀ (as : List Zp) (hls : List Nat) (h : Heap), b ≤ h.next →
      FrameOn b h (accumLoopH p h hls as).1 := by
  intro as
  induction as with
  | nil =>
    intro hls h _
    cases hls <;> exact frameOn_refl b h
  | cons a as' ih =>
    intro hls h hb
    cases hls with
    | nil => exact frameOn_refl b h
    | cons hl hls' =>
      have f1 : FrameOn b h (newScalarMult h hl a).1 := frameOn_alloc h _ hb
      have f2 : FrameOn b (newScalarMult h hl a).1
          (addInto (newScalarMult h hl a).1 p p (newScalarMult h hl a).2) :=
        frameOn_write _ p _ hp
      have hb2 : b ≤ (addInto (newScalarMult h hl a).1 p p
          (newScalarMult h hl a).2).next := by
        have := f1.1
        have := f2.1
        omega
      exact frameOn_trans (frameOn_trans f1 f2) (ih hls' _ hb2)

lemma allocScalarMults_frame {b : Nat} (k : Zp) :
    ∀ (ss : List Nat) (h : Heap), b ≤ h.next →
      FrameOn b h (allocScalarMults k h ss).1 := by
  intro ss
  induction ss with
  | nil => intro h _; exact frameOn_refl b h
  | cons s ss' ih =>
    intro h hb
    have f1 : FrameOn b h (newScalarMult h s k).1 := frameOn_alloc h _ hb
    have hb2 : b ≤ (newScalarMult h s k).1.next := le_trans hb f1.1
    exact frameOn_trans f1 (ih _ hb2)

lemma allocDelegMults_frame {b : Nat} (t : Zp) :
    ∀ (ss pbs : List Nat) (h : Heap), b ≤ h.next →
      FrameOn b h (allocDelegMults t h ss pbs).1 := by
  intro ss
  induction ss with
  | nil => intro pbs h _; cases pbs <;> exact frameOn_refl b h
  | cons s ss' ih =>
    intro pbs h hb
    cases pbs with
    | nil => exact frameOn_refl b h
    | cons pb pbs' =>
      have f1 : FrameOn b h (newScalarMult h s t).1 := frameOn_alloc h _ hb
      have hloc : b ≤ (newScalarMult h s t).2 := le_trans hb (le_refl _)
      have f2 : FrameOn b (newScalarMult h s t).1
          (addInto (newScalarMult h s t).1 (newScalarMult h s t).2 pb
            (newScalarMult h s t).2) :=
        frameOn_write _ _ _ hloc
      have hb2 : b ≤ (addInto (newScalarMult h s t).1 (newScalarMult h s t).2 pb
          (newScalarMult h s t).2).next := by
        have := f1.1
        have := f2.1
        omega
      exact frameOn_trans (frameOn_trans f1 f2) (ih pbs' _ hb2)

lemma hKeyGenFromMaster_frame (rnd : Option Zp) (h : Heap) (params : HParams)
    (master : Nat) (idv : List Zp) :
    FrameOn h.next h (hKeyGenFromMaster rnd h params master idv).2 := by
  unfold hKeyGenFromMaster
  split
  · exact frameOn_refl _ _
  · cases rnd with
    | none => exact frameOn_refl _ _
    | some r =>
      dsimp only
      set pc := deepClone h params.G3 with hpc
      set acc := accumLoopH pc.2 pc.1 params.H idv with hacc
      have hpc2 : pc.2 = h.next := by rw [hpc]; rfl
      have hpcn : pc.1.next = h.next + 1 := by rw [hpc]; rfl
      have f1 : FrameOn h.next h pc.1 := by
        rw [hpc]; exact frameOn_alloc h _ (le_refl _)
      have f2 : FrameOn h.next pc.1 acc.1 := by
        rw [hacc]
        exact accumLoopH_frame pc.2 (by omega) idv params.H pc.1 (by omega)
      have facc : FrameOn h.next h acc.1 := frameOn_trans f1 f2
      split
      · set h3 := scalarMultInto acc.1 pc.2 pc.2 r with hh3
        have f3 : FrameOn h.next acc.1 h3 := by
          rw [hh3]; exact frameOn_write _ _ _ (by omega)
        have hn3 : h.next ≤ h3.next := (frameOn_trans facc f3).1
        set a0 := newAdd h3 master pc.2 with ha0
        have f4 : FrameOn h.next h3 a0.1 := by
          rw [ha0]; exact frameOn_alloc _ _ hn3
        have hn4 : h.next ≤ a0.1.next := le_trans hn3 f4.1
        set a1 := newScalarMult a0.1 params.G r with ha1
        have f5 : FrameOn h.next a0.1 a1.1 := by
          rw [ha1]; exact frameOn_alloc _ _ hn4
        have hn5 : h.next ≤ a1.1.next := le_trans hn4 f5.1
        have f6 : FrameOn h.next a1.1
            (allocScalarMults r a1.1 (params.H.drop idv.length)).1 :=
          allocScalarMults_frame r _ a1.1 hn5
        exact frameOn_trans facc
          (frameOn_trans f3 (frameOn_trans f4 (frameOn_trans f5 f6)))
      · exact facc

lemma hKeyGenFromParent_frame (rnd : Option Zp) (h : Heap) (params : HParams)
    (parent : HKey) (idv : List Zp) :
    FrameOn h.next h (hKeyGenFromParent rnd h params parent idv).2 := by
  unfold hKeyGenFromParent
  split
  · exact frameOn_refl _ _
  · split
    · exact frameOn_refl _ _
    · cases rnd with
      | none => exact frameOn_refl _ _
      | some t =>
        dsimp only
        set pc := deepClone h params.G3 with hpc
        set acc := accumLoopH pc.2 pc.1 params.H idv with hacc
        have hpc2 : pc.2 = h.next := by rw [hpc]; rfl
        have hpcn : pc.1.next = h.next + 1 := by rw [hpc]; rfl
        have f1 : FrameOn h.next h pc.1 := by
          rw [hpc]; exact frameOn_alloc h _ (le_refl _)
        have f2 : FrameOn h.next pc.1 acc.1 := by
          rw [hacc]
          exact accumLoopH_frame pc.2 (by omega) idv params.H pc.1 (by omega)
        have facc : FrameOn h.next h acc.1 := frameOn_trans f1 f2
        split
        · set h3 := scalarMultInto acc.1 pc.2 pc.2 t with hh3
          have f3 : FrameOn h.next acc.1 h3 := by
            rw [hh3]; exact frameOn_write _ _ _ (by omega)
          have fh3 : FrameOn h.next h h3 := frameOn_trans facc f3
          have hn3 : h.next ≤ h3.next := fh3.1
          split
          · set bp := newScalarMult h3 _ _ with hbp
            have f4 : FrameOn h.next h3 bp.1 := by
              rw [hbp]; exact frameOn_alloc _ _ hn3
            have hbp2 : bp.2 = h3.next := by rw [hbp]; rfl
            have hbpn : bp.1.next = h3.next + 1 := by rw [hbp]; rfl
            set a0 := newAdd bp.1 parent.A0 bp.2 with ha0
            have f5 : FrameOn h.next bp.1 a0.1 := by
              rw [ha0]; exact frameOn_alloc _ _ (by omega)
            have ha02 : a0.2 = bp.1.next := by rw [ha0]; rfl
            have ha0n : a0.1.next = bp.1.next + 1 := by rw [ha0]; rfl
            set h6 := addInto a0.1 a0.2 a0.2 pc.2 with hh6
            have f6 : FrameOn h.next a0.1 h6 := by
              rw [hh6]; exact frameOn_write _ _ _ (by omega)
            have hn6 : h6.next = a0.1.next := by rw [hh6]; rfl
            set a1 := newScalarMult h6 params.G t with ha1
            have f7 : FrameOn h.next h6 a1.1 := by
              rw [ha1]; exact frameOn_alloc _ _ (by omega)
            have ha12 : a1.2 = h6.next := by rw [ha1]; rfl
            have ha1n : a1.1.next = h6.next + 1 := by rw [ha1]; rfl
            set h8 := addInto a1.1 a1.2 parent.A1 a1.2 with hh8
            have f8 : FrameOn h.next a1.1 h8 := by
              rw [hh8]; exact frameOn_write _ _ _ (by omega)
            have hn8 : h8.next = a1.1.next := by rw [hh8]; rfl
            have f9 : FrameOn h.next h8
                (allocDelegMults t h8 (params.H.drop idv.length) parent.B.tail).1 :=
              allocDelegMults_frame t _ _ h8 (by omega)
            exact frameOn_trans fh3 (frameOn_trans f4 (frameOn_trans f5
              (frameOn_trans f6 (frameOn_trans f7 (frameOn_trans f8 f9)))))
          · exact fh3
        · exact facc

lemma hEncrypt_frame (rnd : Option Zp) (h : Heap) (params : HParams)
    (idv : List Zp) (msg : Nat) :
    FrameOn h.next h (hEncrypt rnd h params idv msg).2.1 := by
  unfold hEncrypt
  cases rnd with
  | none => exact frameOn_refl _ _
  | some s =>
    dsimp only
    set pc := (match params.Pairing with
      | some c => (h, c)
      | none => newPair h params.G2 params.G1) with hpcdef
    have f1 : FrameOn h.next h pc.1 := by
      rw [hpcdef]
      cases params.Pairing with
      | none => exact frameOn_alloc h _ (le_refl _)
      | some c => exact frameOn_refl _ _
    have hn1 : h.next ≤ pc.1.next := f1.1
    set a := newScalarMult pc.1 pc.2 s with ha
    have f2 : FrameOn h.next pc.1 a.1 := by
      rw [ha]; exact frameOn_alloc _ _ hn1
    have ha2 : a.2 = pc.1.next := by rw [ha]; rfl
    have han : a.1.next = pc.1.next + 1 := by rw [ha]; rfl
    set h3 := addInto a.1 a.2 a.2 msg with hh3
    have f3 : FrameOn h.next a.1 h3 := by
      rw [hh3]; exact frameOn_write _ _ _ (by omega)
    have hn3 : h3.next = a.1.next := by rw [hh3]; rfl
    set b := newScalarMult h3 params.G s with hb
    have f4 : FrameOn h.next h3 b.1 := by
      rw [hb]; exact frameOn_alloc _ _ (by omega)
    have hbn : b.1.next = h3.next + 1 := by rw [hb]; rfl
    set cc := deepClone b.1 params.G3 with hcc
    have f5 : FrameOn h.next b.1 cc.1 := by
      rw [hcc]; exact frameOn_alloc _ _ (by omega)
    have hcc2 : cc.2 = b.1.next := by rw [hcc]; rfl
    have hccn : cc.1.next = b.1.next + 1 := by rw [hcc]; rfl
    set acc := accumLoopH cc.2 cc.1 params.H idv with hacc
    have f6 : FrameOn h.next cc.1 acc.1 := by
      rw [hacc]
      exact accumLoopH_frame cc.2 (by omega) idv params.H cc.1 (by omega)
    have fpre : FrameOn h.next h acc.1 :=
      frameOn_trans f1 (frameOn_trans f2 (frameOn_trans f3
        (frameOn_trans f4 (frameOn_trans f5 f6))))
    split
    · exact frameOn_trans fpre (frameOn_write _ _ _ (by omega))
    · exact fpre

lemma hDecrypt_frame (h : Heap) (key : HKey) (ct : HCiphertext) :
    FrameOn h.next h (hDecrypt h key ct).1 := by
  unfold hDecrypt
  dsimp only
  set p := newPair h ct.C key.A1 with hp
  have f1 : FrameOn h.next h p.1 := by
    rw [hp]; exact frameOn_alloc h _ (le_refl _)
  have hp2 : p.2 = h.next := by rw [hp]; rfl
  have hpn : p.1.next = h.next + 1 := by rw [hp]; rfl
  set q := newPair p.1 key.A0 ct.B with hq
  have f2 : FrameOn h.next p.1 q.1 := by
    rw [hq]; exact frameOn_alloc _ _ (by omega)
  have hqn : q.1.next = p.1.next + 1 := by rw [hq]; rfl
  set inv := newNeg q.1 q.2 with hinv
  have f3 : FrameOn h.next q.1 inv.1 := by
    rw [hinv]; exact frameOn_alloc _ _ (by omega)
  have hinvn : inv.1.next = q.1.next + 1 := by rw [hinv]; rfl
  set h4 := addInto inv.1 p.2 p.2 inv.2 with hh4
  have f4 : FrameOn h.next inv.1 h4 := by
    rw [hh4]; exact frameOn_write _ _ _ (by omega)
  have f5 : FrameOn h.next h4 (addInto h4 p.2 ct.A p.2) :=
    frameOn_write _ _ _ (by omega)
  exact frameOn_trans f1 (frameOn_trans f2 (frameOn_trans f3
    (frameOn_trans f4 f5)))

lemma hEncrypt_params_fields (rnd : Option Zp) (h : Heap) (params : HParams)
    (idv : List Zp) (msg : Nat) :
    (hEncrypt rnd h params idv msg).2.2.G = params.G ∧
      (hEncrypt rnd h params idv msg).2.2.G1 = params.G1 ∧
      (hEncrypt rnd h params idv msg).2.2.G2 = params.G2 ∧
      (hEncrypt rnd h params idv msg).2.2.G3 = params.G3 ∧
      (hEncrypt rnd h params idv msg).2.2.H = params.H := by
  cases rnd with
  | none => exact ⟨rfl, rfl, rfl, rfl, rfl⟩
  | some s =>
    unfold hEncrypt
    dsimp only
    split <;> exact ⟨rfl, rfl, rfl, rfl, rfl⟩

/-- Claim C8: no operation mutates a group element it did not create.  In the
heap embedding, after any call to `KeyGenFromMaster`, `KeyGenFromParent`,
`Encrypt` or `Decrypt`, the value stored at every previously allocated
location — in particular at `params.G`, `params.G1`, `params.G2`,
`params.G3`, every element of `params.H`, `master`, and the parent key
locations `A0`, `A1`, `B[j]` — is unchanged (the accumulator is a fresh
clone of `g3`); and the only `Params` field `Encrypt` changes is the
pairing-cache slot. -/
theorem noForeignMutation (h : Heap) (params : HParams) (master : Nat)
    (parent : HKey) (key : HKey) (ct : HCiphertext)
    (idv idv' idv'' : List Zp) (rnd rnd' rnd'' : Option Zp) (msg : Nat)
    (loc : Nat) (hloc : loc < h.next) :
    (hKeyGenFromMaster rnd h params master idv).2.mem loc = h.mem loc ∧
      (hKeyGenFromParent rnd' h params parent idv').2.mem loc = h.mem loc ∧
      (hEncrypt rnd'' h params idv'' msg).2.1.mem loc = h.mem loc ∧
      (hDecrypt h key ct).1.mem loc = h.mem loc ∧
      (hEncrypt rnd'' h params idv'' msg).2.2.G = params.G ∧
      (hEncrypt rnd'' h params idv'' msg).2.2.G1 = params.G1 ∧
      (hEncrypt rnd'' h params idv'' msg).2.2.G2 = params.G2 ∧
      (hEncrypt rnd'' h params idv'' msg).2.2.G3 = params.G3 ∧
      (hEncrypt rnd'' h params idv'' msg).2.2.H = params.H := by
  obtain ⟨e1, e2, e3, e4, e5⟩ := hEncrypt_params_fields rnd'' h params idv'' msg
  exact ⟨(hKeyGenFromMaster_frame rnd h params master idv).2 loc hloc,
    (hKeyGenFromParent_frame rnd' h params parent idv').2 loc hloc,
    (hEncrypt_frame rnd'' h params idv'' msg).2 loc hloc,
    (hDecrypt_frame h key ct).2 loc hloc, e1, e2, e3, e4, e5⟩

/-! ## Concrete witnesses -/

/-- A random stream whose reads all succeed (read `i` returns `i + 1`). -/
def sampleRnd : Nat → Option Zp := fun i => some (i + 1)

/-- The parameters `Setup sampleRnd 1` produces. -/
def params1 : Params :=
  { G := 1, G1 := 2, G2 := 3, G3 := 4, H := [5], Pairing := none }

/-- The parameters `Setup sampleRnd 2` produces. -/
def params2 : Params :=
  { G := 1, G1 := 2, G2 := 3, G3 := 4, H := [5, 6], Pairing := none }

/-- Parameters whose pairing cache is already populated (with an arbitrary
value, to observe that it is never recomputed). -/
def cachedParams : Params :=
  { G := 1, G1 := 2, G2 := 3, G3 := 4, H := [5], Pairing := some 9 }

/-- A concrete heap with ten live locations. -/
def sampleHeap : Heap := { mem := fun i => (i : Zp), next := 10 }

/-- Concrete parameter locations inside `sampleHeap`. -/
def sampleHParams : HParams :=
  { G := 0, G1 := 1, G2 := 2, G3 := 3, H := [4, 5], Pairing := none }

/-- Concrete private-key locations inside `sampleHeap`. -/
def sampleHKey : HKey := { A0 := 6, A1 := 7, B := [8, 9] }

/-- Concrete ciphertext locations inside `sampleHeap`. -/
def sampleHCt : HCiphertext := { A := 4, B := 5, C := 6 }

/-- Witness for C1 at `l = 1`, `id = [3]`, `m = 42`. -/
theorem roundTrip_correct_witness :
    Setup sampleRnd 1 = .ok (params1, 6) ∧ 0 < [(3 : Zp)].length ∧
      [(3 : Zp)].length ≤ 1 ∧
      KeyGenFromMaster (some 7) params1 6 [3] =
        .ok { A0 := 139, A1 := 7, B := [] } ∧
      Encrypt (some 11) params1 [3] 42 =
        (.ok { A := 108, B := 11, C := 209 },
         { G := 1, G1 := 2, G2 := 3, G3 := 4, H := [5], Pairing := some 6 }) ∧
      Decrypt { A0 := 139, A1 := 7, B := [] } { A := 108, B := 11, C := 209 } = 42 :=
  ⟨by decide, by decide, by decide, by decide, by decide,
   roundTrip_correct sampleRnd 1 params1 6 [3] 7 11 42
     { A0 := 139, A1 := 7, B := [] } { A := 108, B := 11, C := 209 }
     { G := 1, G1 := 2, G2 := 3, G3 := 4, H := [5], Pairing := some 6 }
     (by decide) (by decide) (by decide) (by decide) (by decide)⟩

/-- Witness for C2 at `l = 2`, `id = [3, 9]`: the two-step chained key and the
directly derived key decrypt the same ciphertext identically. -/
theorem delegation_equiv_witness :
    Setup sampleRnd 2 = .ok (params2, 6) ∧ [(3 : Zp), 9].length ≤ 2 ∧
      KeyGenFromMaster (some 7) params2 6 [] =
        .ok { A0 := 34, A1 := 7, B := [35, 42] } ∧
      chainFrom params2 { A0 := 34, A1 := 7, B := [35, 42] } [] [3, 9] [10, 20] =
        .ok { A0 := 2707, A1 := 37, B := [] } ∧
      KeyGenFromMaster (some 11) params2 6 [3, 9] =
        .ok { A0 := 809, A1 := 11, B := [] } ∧
      Encrypt (some 13) params2 [3, 9] 42 =
        (.ok { A := 120, B := 13, C := 949 },
         { G := 1, G1 := 2, G2 := 3, G3 := 4, H := [5, 6], Pairing := some 6 }) ∧
      Decrypt { A0 := 2707, A1 := 37, B := [] } { A := 120, B := 13, C := 949 } =
        Decrypt { A0 := 809, A1 := 11, B := [] } { A := 120, B := 13, C := 949 } :=
  ⟨by decide, by decide, by decide, by decide, by decide, by decide,
   delegation_equiv sampleRnd 2 params2 6 [3, 9] [10, 20] 7 11 13 42
     { A0 := 34, A1 := 7, B := [35, 42] } { A0 := 2707, A1 := 37, B := [] }
     { A0 := 809, A1 := 11, B := [] } { A := 120, B := 13, C := 949 }
     { G := 1, G1 := 2, G2 := 3, G3 := 4, H := [5, 6], Pairing := some 6 }
     (by decide) (by decide) (by decide) (by decide) (by decide) (by decide)⟩

/-- Witness for C3: depth 1 in a hierarchy of maximum depth 0. -/
theorem depthExceeded_reported_witness :
    ({ G := 0, G1 := 0, G2 := 0, G3 := 0, H := [], Pairing := none } :
        Params).MaximumDepth < [(1 : Zp)].length ∧
      (KeyGenFromMaster (some 0)
          { G := 0, G1 := 0, G2 := 0, G3 := 0, H := [], Pairing := none } 0 [1] =
        .error .depthExceeded ∧
      KeyGenFromParent (some 0)
          { G := 0, G1 := 0, G2 := 0, G3 := 0, H := [], Pairing := none }
          { A0 := 0, A1 := 0, B := [] } [1] =
        .error .depthExceeded) :=
  ⟨by decide,
   depthExceeded_reported (some 0) (some 0)
     { G := 0, G1 := 0, G2 := 0, G3 := 0, H := [], Pairing := none } 0
     { A0 := 0, A1 := 0, B := [] } [1] (by decide)⟩

/-- Witness for the amended C4: `k = l = 1`, parent with `DepthLeft() = 0`
instead of the expected `l - k + 1 = 1`. -/
theorem parentMismatch_rejected_witness :
    [(2 : Zp)].length ≤ params1.MaximumDepth ∧
      ((({ A0 := 0, A1 := 0, B := [] } : PrivateKey).DepthLeft : Int) ≠
        (params1.MaximumDepth : Int) - ([(2 : Zp)].length : Int) + 1) ∧
      KeyGenFromParent (some 0) params1 { A0 := 0, A1 := 0, B := [] } [2] =
        .error .structuralMismatch :=
  ⟨by decide, by decide,
   parentMismatch_rejected (some 0) params1 { A0 := 0, A1 := 0, B := [] } [2]
     (by decide) (by decide)⟩

/-- Witness for C5: a master-derived key and a parent-derived key at depth 1
in a hierarchy of maximum depth 2. -/
theorem keyDepth_invariant_witness :
    KeyGenFromMaster (some 7) params2 6 [3] =
        .ok { A0 := 139, A1 := 7, B := [42] } ∧
      KeyGenFromParent (some 10) params2 { A0 := 34, A1 := 7, B := [35, 42] } [3] =
        .ok { A0 := 329, A1 := 17, B := [102] } ∧
      (({ A0 := 139, A1 := 7, B := [42] } : PrivateKey).B.length =
          params2.MaximumDepth - [(3 : Zp)].length ∧
        ({ A0 := 139, A1 := 7, B := [42] } : PrivateKey).DepthLeft =
          ({ A0 := 139, A1 := 7, B := [42] } : PrivateKey).B.length ∧
        ({ A0 := 329, A1 := 17, B := [102] } : PrivateKey).B.length =
          params2.MaximumDepth - [(3 : Zp)].length ∧
        ({ A0 := 329, A1 := 17, B := [102] } : PrivateKey).DepthLeft =
          ({ A0 := 329, A1 := 17, B := [102] } : PrivateKey).B.length) :=
  ⟨by decide, by decide,
   keyDepth_invariant (some 7) (some 10) params2 6
     { A0 := 34, A1 := 7, B := [35, 42] } [3] [3]
     { A0 := 139, A1 := 7, B := [42] } { A0 := 329, A1 := 17, B := [102] }
     (by decide) (by decide)⟩

/-- Witness for C6: fresh params have no cache; params with a populated cache
keep its value through `Precache` and `Encrypt`. -/
theorem pairingCache_monotone_witness :
    Setup sampleRnd 1 = .ok (params1, 6) ∧
      (params1.Pairing = none ∧
        (cachedParams.Pairing = none →
          cachedParams.Precache.Pairing =
            some (cachedParams.G2 * cachedParams.G1)) ∧
        (cachedParams.Pairing = none →
          (Encrypt (some 2) cachedParams [3] 0).2.Pairing =
            some (cachedParams.G2 * cachedParams.G1)) ∧
        (cachedParams.Pairing = some 9 → cachedParams.Precache = cachedParams) ∧
        (cachedParams.Pairing = some 9 →
          (Encrypt (some 2) cachedParams [3] 0).2.Pairing = some 9)) :=
  ⟨by decide,
   pairingCache_monotone sampleRnd 1 params1 6 cachedParams 9 [3] 0 2 (by decide)⟩

/-- Witness for C7: a random source whose every read fails. -/
theorem entropyFailure_aborts_witness :
    ((fun _ => (none : Option Zp)) 0 = none ∨
        (fun _ => (none : Option Zp)) 1 = none ∨
        (fun _ => (none : Option Zp)) 2 = none ∨
        (fun _ => (none : Option Zp)) 3 = none ∨
        ∃ i, i < 1 ∧ (fun _ => (none : Option Zp)) (4 + i) = none) ∧
      ([] : List Zp).length ≤ params1.MaximumDepth ∧
      ((({ A0 := 0, A1 := 0, B := [0, 0] } : PrivateKey).DepthLeft : Int) =
        (params1.MaximumDepth : Int) - (([] : List Zp).length : Int) + 1) ∧
      (Setup (fun _ => none) 1 = .error .entropyFailure ∧
        KeyGenFromMaster none params1 0 [] = .error .entropyFailure ∧
        KeyGenFromParent none params1 { A0 := 0, A1 := 0, B := [0, 0] } [] =
          .error .entropyFailure ∧
        Encrypt none params1 [] 0 = (.error .entropyFailure, params1)) :=
  ⟨Or.inl rfl, by decide, by decide,
   entropyFailure_aborts (fun _ => none) 1 params1 0
     { A0 := 0, A1 := 0, B := [0, 0] } [] 0 (Or.inl rfl) (by decide) (by decide)⟩

/-- Witness for C9: `Encrypt` with a two-segment path over a depth-1
hierarchy hits the out-of-range branch, not a depth error. -/
theorem encrypt_noDepthCheck_witness :
    params1.MaximumDepth < [(2 : Zp), 2].length ∧
      (Encrypt (some 3) params1 [2, 2] 0).1 = .error .indexOutOfRange :=
  ⟨by decide, encrypt_noDepthCheck params1 3 0 [2, 2] (by decide)⟩

/-- Witness for C10: the empty path at `l = 1`. -/
theorem emptyId_roundTrip_witness :
    Setup sampleRnd 1 = .ok (params1, 6) ∧
      KeyGenFromMaster (some 7) params1 6 [] =
        .ok { A0 := 34, A1 := 7, B := [35] } ∧
      Encrypt (some 11) params1 [] 42 =
        (.ok { A := 108, B := 11, C := 44 },
         { G := 1, G1 := 2, G2 := 3, G3 := 4, H := [5], Pairing := some 6 }) ∧
      (({ A0 := 34, A1 := 7, B := [35] } : PrivateKey).A0 = 6 + params1.G3 * 7 ∧
        ({ A0 := 34, A1 := 7, B := [35] } : PrivateKey).DepthLeft =
          params1.MaximumDepth ∧
        ({ A := 108, B := 11, C := 44 } : Ciphertext).C = params1.G3 * 11 ∧
        Decrypt { A0 := 34, A1 := 7, B := [35] } { A := 108, B := 11, C := 44 } = 42) :=
  ⟨by decide, by decide, by decide,
   emptyId_roundTrip sampleRnd 1 params1 6 7 11 42
     { A0 := 34, A1 := 7, B := [35] } { A := 108, B := 11, C := 44 }
     { G := 1, G1 := 2, G2 := 3, G3 := 4, H := [5], Pairing := some 6 }
     (by decide) (by decide) (by decide)⟩

/-- Witness for C8: location 3 (`params.G3`) of a concrete ten-location heap
is untouched by all four heap-embedded operations. -/
theorem noForeignMutation_witness :
    3 < sampleHeap.next ∧
      ((hKeyGenFromMaster (some 1) sampleHeap sampleHParams 6 [2]).2.mem 3 =
          sampleHeap.mem 3 ∧
        (hKeyGenFromParent (some 1) sampleHeap sampleHParams sampleHKey [2]).2.mem 3 =
          sampleHeap.mem 3 ∧
        (hEncrypt (some 1) sampleHeap sampleHParams [2] 7).2.1.mem 3 =
          sampleHeap.mem 3 ∧
        (hDecrypt sampleHeap sampleHKey sampleHCt).1.mem 3 = sampleHeap.mem 3 ∧
        (hEncrypt (some 1) sampleHeap sampleHParams [2] 7).2.2.G = sampleHParams.G ∧
        (hEncrypt (some 1) sampleHeap sampleHParams [2] 7).2.2.G1 = sampleHParams.G1 ∧
        (hEncrypt (some 1) sampleHeap sampleHParams [2] 7).2.2.G2 = sampleHParams.G2 ∧
        (hEncrypt (some 1) sampleHeap sampleHParams [2] 7).2.2.G3 = sampleHParams.G3 ∧
        (hEncrypt (some 1) sampleHeap sampleHParams [2] 7).2.2.H = sampleHParams.H) :=
  ⟨by decide,
   noForeignMutation sampleHeap sampleHParams 6 sampleHKey sampleHKey sampleHCt
     [2] [2] [2] (some 1) (some 1) (some 1) 7 3 (by decide)⟩
